import Mathlib

/-!
Verification of the ERC-1155-style multi-asset ledger (src/erc1155/lib.rs).

The contract's storage and operations are shallowly embedded: `Mapping`s become
association lists (last insert wins, modelled by consing in front), `u128`
arithmetic becomes `Nat` with explicit `2^128 - 1` bounds for the `checked_add`
and `checked_sub` calls, fallible messages return `State × Except Error α`
(a returned `Err` in ink! 3.x does not revert earlier writes, so the mutated
state is carried along), and a Rust panic / chain trap — which does revert the
whole transaction — is modelled by an outer `Option` returning `none`.

The cross-contract acceptance call is modelled by a `Callback` parameter: the
recipient's code receives the ledger state at the moment of the call, may
mutate it arbitrarily (re-entrancy), and produces a `CallResult`.  The Blake2
hash used to derive NFT identities lives in `ink_env`, outside the contract:
it is modelled as an uninterpreted deterministic function in `Env`.
-/

namespace Erc1155

/- The source's scalar aliases — `AccountId` (32-byte account id, whose
`default()` is modelled as `0`), `TokenId` (`u128`), `Balance` (`u128`) and
`NftIdentity` (a 32-byte `Hash`) — are all modelled as plain `Nat`; `u128`
overflow is explicit at each `checked_add`/`checked_sub` site. -/

/-- u128::MAX, the width bound for every `checked_add`/`checked_sub` in the source. -/
def U128_MAX : Nat := 2 ^ 128 - 1

def DEFAULT_CURRENCY_NAME : String := "SKMiZ"
def MAX_CURRENCY_AMOUNT : Nat := U128_MAX
def CURRENCY_TOKEN_ID : Nat := 0
def MINT_FEE : Nat := 100
def BUY_AMOUNT_500 : Nat := 500

def ON_ERC1155_RECEIVED_SELECTOR : List Nat := [0xf2, 0x3a, 0x6e, 0x61]
def ON_ERC1155_BATCH_RECEIVED_SELECTOR : List Nat := [0xbc, 0x19, 0x7c, 0x81]

inductive Error where
  | PermissionDenied
  | NotFound
  | AlreadyExist
  | WrongArgument
  | NotEnoughFee
  | NotAvailable
  | BadAdress
  | SelfOperation
  | Overflow
  | Underflow
  | StorageInconsistency
  | TransferDenied
deriving DecidableEq, Repr

inductive ApprovalScope where
  | Some
  | All
deriving DecidableEq, Repr

inductive TokenKind where
  | Ft
  | Nft
deriving DecidableEq, Repr

inductive AmountOption where
  | None
  | Some (n : Nat)
  | Max
deriving DecidableEq, Repr

/-- Checked u128 addition (`checked_add` in the source). -/
def checked_add (a b : Nat) : Option Nat :=
  if a + b ≤ U128_MAX then some (a + b) else none

/-- Checked u128/usize subtraction (`checked_sub`, and the implicit usize
subtraction `joined.len() - 1` whose underflow traps). -/
def checked_sub (a b : Nat) : Option Nat :=
  if b ≤ a then some (a - b) else none

/-- Association-list lookup; the first binding for a key wins. -/
def lookupA {α β : Type} [DecidableEq α] : List (α × β) → α → Option β
  | [], _ => none
  | (k, v) :: rest, key => if key = k then some v else lookupA rest key

/-- Source `Mapping::insert`: a fresh binding in front shadows older ones. -/
def insertA {α β : Type} [DecidableEq α] (m : List (α × β)) (k : α) (v : β) :
    List (α × β) :=
  (k, v) :: m

/-- Source `Mapping::remove`: drop every binding for the key. -/
def removeA {α β : Type} [DecidableEq α] : List (α × β) → α → List (α × β)
  | [], _ => []
  | (k, v) :: rest, key =>
      if k = key then removeA rest key else (k, v) :: removeA rest key

/-- Boolean membership (`Vec::contains` / `iter().find(..).is_some()`). -/
def containsA {α : Type} [DecidableEq α] : List α → α → Bool
  | [], _ => false
  | x :: rest, y => if y = x then true else containsA rest y

/-- Source `iter().position(..)` for an equality predicate. -/
def findIdxA {α : Type} [DecidableEq α] : List α → α → Option Nat
  | [], _ => none
  | x :: rest, y => if y = x then some 0 else (findIdxA rest y).map (· + 1)

/-- The contract storage struct `Erc1155Contract`. -/
structure State where
  founder : Nat
  variety_of_tokens : Nat
  token_infomations : List (Nat × (String × TokenKind))
  balances : List ((Nat × Nat) × Nat)
  nfts : List ((Nat × Nat) × List Nat)
  approvals : List ((Nat × Nat) × (ApprovalScope × List Nat))
  nft_approvals : List ((Nat × Nat) × List Nat)
deriving DecidableEq, Repr, Inhabited

/-- Ambient execution context: `env().caller()`, `env().account_id()`,
`env().transferred_value()`, and the Blake2x256 hash provided by `ink_env`
(deterministic, uninterpreted here). `Nat::default()` is `0`. -/
structure Env where
  caller : Nat
  contractAddress : Nat
  transferredValue : Nat
  hashFn : String → Nat

/-- Outcome of the cross-contract receiver call as seen by the ledger. -/
inductive CallResult where
  | success (bytes : List Nat)
  | codeNotFound
  | notCallable
  | otherError
deriving DecidableEq, Repr

/-- The recipient's code: it runs on the ledger state current at the moment of
the acceptance call, may re-enter and mutate it, and yields the call outcome. -/
abbrev Callback := State → State × CallResult

/-- Holds (as `true`) iff a transaction result is a committed `Ok` outcome. -/
def txSucceeds (r : Option (State × Except Error Unit)) : Bool :=
  match r with
  | some (_, .ok ()) => true
  | _ => false

/-- Source `balance_of_single_impl`: zero for an absent entry. -/
def balance_of_single_impl (σ : State) (owner : Nat) (token_id : Nat) :
    Nat :=
  (lookupA σ.balances (owner, token_id)).getD 0

/-- Public message `balance_of`. -/
def balance_of (σ : State) (owner : Nat) (token_id : Nat) : Nat :=
  balance_of_single_impl σ owner token_id

/-- Source `get_nft_owned_list_impl`: `None` for an account that never held the token. -/
def get_nft_owned_list_impl (σ : State) (owner : Nat) (token_id : Nat) :
    Option (List Nat) :=
  lookupA σ.nfts (owner, token_id)

/-- Source `get_token_type_single_impl`. -/
def get_token_type_single_impl (σ : State) (token_id : Nat) :
    Except Error (String × TokenKind) :=
  match lookupA σ.token_infomations token_id with
  | some p => .ok p
  | none => .error .NotFound

/-- Source `gen_to_identity_impl`: Blake2x256 of the seed bytes, via the
environment's hash function. -/
def gen_to_identity_impl (env : Env) (gen : String) : Nat :=
  env.hashFn gen

/-- Source `transfer_token_impl`.  Note the write order: the `from` balance is written
first, the `to` balance second (the second write wins when `from = to`). -/
def transfer_token_impl (σ : State) (operator : Nat) (token_id : Nat)
    (from_ : Nat) (to_ : Nat) (amount : Nat) :
    State × Except Error Nat :=
  let _ := operator
  let current_src_balance := balance_of_single_impl σ from_ token_id
  if current_src_balance < amount then (σ, .error .NotAvailable)
  else
    match checked_sub current_src_balance amount with
    | none => (σ, .error .NotAvailable)
    | some new_src_balance =>
      let current_dest_balance := balance_of_single_impl σ to_ token_id
      match checked_add current_dest_balance amount with
      | none => (σ, .error .Overflow)
      | some new_dest_balance =>
        let balances1 := insertA σ.balances (from_, token_id) new_src_balance
        let balances2 := insertA balances1 (to_, token_id) new_dest_balance
        ({σ with balances := balances2}, .ok amount)

/-- Source `pay`: debit the mint fee in currency (token id 0) from the caller to the
contract's own account. -/
def pay (env : Env) (σ : State) (amount : Nat) : State × Except Error Nat :=
  transfer_token_impl σ env.caller CURRENCY_TOKEN_ID env.caller
    env.contractAddress amount

/-- Source `create_nft_impl`.  On `AlreadyExist` nothing is written; otherwise the
identity is appended to the caller's instance list, and only then is the
mirror balance incremented (`checked_add 1`, which can still fail). -/
def create_nft_impl (env : Env) (σ : State) (token_id : Nat) (gen : String) :
    State × Except Error Nat :=
  let caller := env.caller
  let identity := gen_to_identity_impl env gen
  match lookupA σ.nfts (caller, token_id) with
  | some v =>
    if containsA v identity then (σ, .error .AlreadyExist)
    else
      let σ1 := {σ with nfts := insertA σ.nfts (caller, token_id) (v ++ [identity])}
      match checked_add (balance_of_single_impl σ1 caller token_id) 1 with
      | none => (σ1, .error .Overflow)
      | some nft_owned =>
        ({σ1 with balances := insertA σ1.balances (caller, token_id) nft_owned},
         .ok identity)
  | none =>
      let σ1 := {σ with nfts := insertA σ.nfts (caller, token_id) [identity]}
      match checked_add (balance_of_single_impl σ1 caller token_id) 1 with
      | none => (σ1, .error .Overflow)
      | some nft_owned =>
        ({σ1 with balances := insertA σ1.balances (caller, token_id) nft_owned},
         .ok identity)

/-- Public message `mint`.  The fee is paid (state mutated!) before the
duplicate-identity check, and any `pay` error is reported as `NotEnoughFee`. -/
def mint (env : Env) (σ : State) (token_id : Nat) (gen : String) :
    State × Except Error Nat :=
  if token_id ≥ σ.variety_of_tokens then (σ, .error .NotFound)
  else if gen = "" then (σ, .error .WrongArgument)
  else
    match get_token_type_single_impl σ token_id with
    | .error e => (σ, .error e)
    | .ok (_, k) =>
      if k ≠ TokenKind.Nft then (σ, .error .NotFound)
      else
        match pay env σ MINT_FEE with
        | (σ1, .error _) => (σ1, .error .NotEnoughFee)
        | (σ1, .ok _) => create_nft_impl env σ1 token_id gen

/-- Source `is_approved_single_nft_impl`. -/
def is_approved_single_nft_impl (env : Env) (σ : State)
    (pair : Nat × Nat) (gen : String) : Bool :=
  match lookupA σ.nft_approvals pair with
  | some v => containsA v (gen_to_identity_impl env gen)
  | none => false

/-- Source `is_approved_impl`: the approval resolution algorithm. -/
def is_approved_impl (env : Env) (σ : State) (owner operator : Nat)
    (op_token_id : Option Nat) (op_nft_gen : Option String) :
    Except Error Bool :=
  match lookupA σ.approvals (owner, operator) with
  | none => .ok false
  | some (s, v) =>
    match s with
    | ApprovalScope.All => .ok true
    | ApprovalScope.Some =>
      match op_token_id with
      | none => .error .WrongArgument
      | some token_id =>
        match get_token_type_single_impl σ token_id with
        | .error e => .error e
        | .ok (_, k) =>
          match k with
          | TokenKind.Ft => .ok (containsA v token_id)
          | TokenKind.Nft =>
            match op_nft_gen with
            | none => .error .WrongArgument
            | some gen =>
              if ¬ containsA v token_id then .ok false
              else .ok (is_approved_single_nft_impl env σ (owner, operator) gen)

/-- Source `set_approval_for_all_impl`. -/
def set_approval_for_all_impl (σ : State) (owner operator : Nat)
    (approved : Bool) : State :=
  match lookupA σ.approvals (owner, operator) with
  | some (_, v) =>
    let scope := if approved then ApprovalScope.All else ApprovalScope.Some
    {σ with approvals := insertA σ.approvals (owner, operator) (scope, v)}
  | none =>
    if approved then
      {σ with approvals := insertA σ.approvals (owner, operator) (ApprovalScope.All, [])}
    else σ

/-- Public message `set_approval_for_all`. -/
def set_approval_for_all (env : Env) (σ : State) (operator : Nat)
    (approved : Bool) : State × Except Error Unit :=
  if operator = 0 then (σ, .error .BadAdress)
  else if operator = env.caller then (σ, .error .SelfOperation)
  else (set_approval_for_all_impl σ env.caller operator approved, .ok ())

/-- Source `set_approval_impl`: add the token id to the Limited list. -/
def set_approval_impl (σ : State) (owner operator : Nat)
    (token_id : Nat) : State :=
  match lookupA σ.approvals (owner, operator) with
  | some (s, v) =>
    if ¬ containsA v token_id then
      {σ with approvals := insertA σ.approvals (owner, operator) (s, v ++ [token_id])}
    else σ
  | none =>
    {σ with approvals := insertA σ.approvals (owner, operator) (ApprovalScope.Some, [token_id])}

/-- Source `set_approval_nft_inpl` (typo kept from the source). -/
def set_approval_nft_inpl (σ : State) (owner operator : Nat)
    (token_id : Nat) (nft_identity : Nat) : State :=
  let σ1 :=
    match lookupA σ.nft_approvals (owner, operator) with
    | some v =>
      if ¬ containsA v nft_identity then
        {σ with nft_approvals :=
          insertA σ.nft_approvals (owner, operator) (v ++ [nft_identity])}
      else σ
    | none =>
      {σ with nft_approvals :=
        insertA σ.nft_approvals (owner, operator) [nft_identity]}
  set_approval_impl σ1 owner operator token_id

/-- Inner loop of `set_approval` over one entry's seed list; `owned` is the
caller's instance list fetched once for the entry.  A seed whose identity is
not owned aborts with `PermissionDenied`, keeping earlier writes. -/
def set_approval_gen_loop (env : Env) (σ : State) (operator : Nat)
    (token_id : Nat) (owned : List Nat) :
    List String → State × Except Error Unit
  | [] => (σ, .ok ())
  | gen :: rest =>
    let hash := gen_to_identity_impl env gen
    if ¬ containsA owned hash then (σ, .error .PermissionDenied)
    else
      set_approval_gen_loop env (set_approval_nft_inpl σ env.caller operator token_id hash)
        operator token_id owned rest

/-- Outer loop of `set_approval` over the entry list. -/
def set_approval_loop (env : Env) (σ : State) (operator : Nat) :
    List (Nat × Option (List String)) → State × Except Error Unit
  | [] => (σ, .ok ())
  | (id, opv) :: rest =>
    match get_token_type_single_impl σ id with
    | .error e => (σ, .error e)
    | .ok (_, kind) =>
      match kind with
      | TokenKind.Ft =>
        set_approval_loop env (set_approval_impl σ env.caller operator id) operator rest
      | TokenKind.Nft =>
        match opv with
        | none => (σ, .error .WrongArgument)
        | some v =>
          match lookupA σ.nfts (env.caller, id) with
          | none => (σ, .error .NotFound)
          | some owned =>
            match set_approval_gen_loop env σ operator id owned v with
            | (σ1, .ok ()) => set_approval_loop env σ1 operator rest
            | (σ1, .error e) => (σ1, .error e)

/-- Public message `set_approval`. -/
def set_approval (env : Env) (σ : State) (operator : Nat)
    (approved_tokens : List (Nat × Option (List String))) :
    State × Except Error Unit :=
  if operator = 0 then (σ, .error .BadAdress)
  else if env.caller = operator then (σ, .error .SelfOperation)
  else set_approval_loop env σ operator approved_tokens

/-- Source `create_token_type_impl`: bump the id counter, record the type at the old
counter value, credit any fungible initial supply to the contract's own
account, and return the new counter value. -/
def create_token_type_impl (env : Env) (σ : State) (name : String)
    (token_kind : TokenKind) (initial_amount : AmountOption) :
    State × Except Error Nat :=
  let next_idx := σ.variety_of_tokens
  match checked_add σ.variety_of_tokens 1 with
  | none => (σ, .error .Overflow)
  | some next_num_tokens =>
    let σ1 := {σ with
      variety_of_tokens := next_num_tokens,
      token_infomations := insertA σ.token_infomations next_idx (name, token_kind)}
    if token_kind = TokenKind.Ft then
      let initial_ft_amount :=
        match initial_amount with
        | AmountOption.None => 0
        | AmountOption.Some n => n
        | AmountOption.Max => MAX_CURRENCY_AMOUNT
      ({σ1 with balances :=
          insertA σ1.balances (env.contractAddress, next_idx) initial_ft_amount},
       .ok next_num_tokens)
    else (σ1, .ok next_num_tokens)

/-- Public message `create_token_type`. -/
def create_token_type (env : Env) (σ : State) (name : String)
    (token_kind : TokenKind) (initial_amount : AmountOption) :
    State × Except Error Nat :=
  if env.caller ≠ σ.founder then (σ, .error .PermissionDenied)
  else if name = "" then (σ, .error .WrongArgument)
  else create_token_type_impl env σ name token_kind initial_amount

/-- Public message `buy_currency`: 1:1 exchange of the transferred payment for
currency out of the contract's own pool. -/
def buy_currency (env : Env) (σ : State) (how_much : Nat) :
    State × Except Error Nat :=
  if env.transferredValue < how_much then (σ, .error .NotEnoughFee)
  else
    transfer_token_impl σ env.caller CURRENCY_TOKEN_ID env.contractAddress
      env.caller how_much

/-- Public message `buy_currency_500` (fixed amount 500). -/
def buy_currency_500 (env : Env) (σ : State) : State × Except Error Nat :=
  if env.transferredValue < BUY_AMOUNT_500 then (σ, .error .NotEnoughFee)
  else
    transfer_token_impl σ env.caller CURRENCY_TOKEN_ID env.contractAddress
      env.caller BUY_AMOUNT_500

/-- The source's validation loop over returned bytes: each byte is compared
against `ON_ERC1155_RECEIVED_SELECTOR[i]` — the single-transfer magic — no
matter which selector was invoked; index `i ≥ 4` is out of bounds on the
4-byte array and traps (`none`). An empty or strict-prefix return passes. -/
def check_returned_bytes : List Nat → Nat → Option (Except Error Unit)
  | [], _ => some (.ok ())
  | n :: rest, i =>
    match ON_ERC1155_RECEIVED_SELECTOR.get? i with
    | none => none
    | some s => if n ≠ s then some (.error .TransferDenied) else check_returned_bytes rest (i + 1)

/-- Source `transfer_acceptance_check_impl`.  The recipient's code is the callback;
`use_batch` selects which receiver selector is invoked (it does not change the
byte validation, exactly as in the source).  In the non-batch arm the source
indexes `token_ids[0]` and `values[0]`, so empty argument lists trap. -/
def transfer_acceptance_check_impl (cb : Callback) (σ : State)
    (operator from_ to_ : Nat) (token_ids : List Nat)
    (values : List Nat) (data : String) (use_batch : Bool) :
    Option (State × Except Error Unit) :=
  let _ := (operator, from_, to_, data)
  if use_batch = false ∧ (token_ids = [] ∨ values = []) then none
  else
    match cb σ with
    | (σc, ret) =>
      match ret with
      | CallResult.success v =>
        match check_returned_bytes v 0 with
        | none => none
        | some r => some (σc, r)
      | CallResult.codeNotFound => some (σc, .ok ())
      | CallResult.notCallable => some (σc, .ok ())
      | CallResult.otherError => some (σc, .error .TransferDenied)

/-- Source `transfer_nft_impl`.  The source fetches the sender's instance list into a
local `Vec`, `swap_remove`s the identity from that local copy, and appends the
removed element (`target`, the element at the found index) to the recipient's
stored list — but it never writes the modified sender list back into
`self.nfts`, so the sender's stored set keeps the identity. -/
def transfer_nft_impl (env : Env) (σ : State) (token_id : Nat)
    (from_ to_ : Nat) (gen : String) : State × Except Error Unit :=
  match get_nft_owned_list_impl σ from_ token_id with
  | none => (σ, .error .NotFound)
  | some nft_list_src =>
    let identity := gen_to_identity_impl env gen
    match findIdxA nft_list_src identity with
    | none => (σ, .error .NotFound)
    | some idx =>
      let target := nft_list_src.getD idx 0
      match get_nft_owned_list_impl σ to_ token_id with
      | some v =>
        ({σ with nfts := insertA σ.nfts (to_, token_id) (v ++ [target])}, .ok ())
      | none =>
        ({σ with nfts := insertA σ.nfts (to_, token_id) [target]}, .ok ())

/-- Commit-and-notify tail of `safe_transfer_from`, run on the state left by
the acceptance callback. -/
def safe_transfer_commit (env : Env) (σ : State) (from_ to_ : Nat)
    (token_id : Nat) (amount : Nat) (gen : String) :
    State × Except Error Unit :=
  let caller := env.caller
  match transfer_token_impl σ caller token_id from_ to_ amount with
  | (σ2, .error e) => (σ2, .error e)
  | (σ2, .ok _) =>
    let σ3 := {σ2 with approvals := removeA σ2.approvals (caller, from_)}
    match get_token_type_single_impl σ3 token_id with
    | .error e => (σ3, .error e)
    | .ok (_, k) =>
      if k = TokenKind.Nft then
        match transfer_nft_impl env σ3 token_id from_ to_ gen with
        | (σ4, .error e) => (σ4, .error e)
        | (σ4, .ok _) =>
          ({σ4 with nft_approvals := removeA σ4.nft_approvals (caller, from_)}, .ok ())
      else (σ3, .ok ())

/-- Address checks, acceptance call and commit of `safe_transfer_from`:
everything after the operator-authorisation check. -/
def safe_transfer_after_auth (env : Env) (cb : Callback) (σ : State)
    (from_ to_ : Nat) (token_id : Nat) (amount : Nat)
    (gen : String) : Option (State × Except Error Unit) :=
  if to_ = 0 then some (σ, .error .BadAdress)
  else if to_ = from_ then some (σ, .error .SelfOperation)
  else
    match transfer_acceptance_check_impl cb σ env.caller from_ to_ [token_id]
        [amount] gen false with
    | none => none
    | some (σc, .error e) => some (σc, .error e)
    | some (σc, .ok _) => some (safe_transfer_commit env σc from_ to_ token_id amount gen)

/-- Public message `safe_transfer_from`: AuthCheck, AcceptanceCheck (the one
external call, before any mutation), then Commit/Notify. -/
def safe_transfer_from (env : Env) (cb : Callback) (σ : State)
    (from_ to_ : Nat) (token_id : Nat) (amount : Nat)
    (gen : String) : Option (State × Except Error Unit) :=
  let caller := env.caller
  if caller ≠ from_ then
    match is_approved_impl env σ from_ caller (some token_id)
        (if gen ≠ "" then some gen else none) with
    | .error e => some (σ, .error e)
    | .ok is_approved =>
      if ¬ is_approved then some (σ, .error .PermissionDenied)
      else safe_transfer_after_auth env cb σ from_ to_ token_id amount gen
  else safe_transfer_after_auth env cb σ from_ to_ token_id amount gen

/-- Byte-index insertion into a string (`String::insert_str`), as characters. -/
def string_insert_str (s : String) (idx : Nat) (t : String) : String :=
  String.mk (s.data.take idx ++ t.data ++ s.data.drop idx)

/-- The payload-joining loop of `safe_batch_transfer_from`: starting from an
empty `joined`, each auxiliary string is inserted at `joined.len() - 1`
followed by the delimiter at the new `len() - 1`.  The usize subtraction is
modelled checked: on the very first iteration `joined` is empty and `0 - 1`
underflows, trapping the contract (`none`). -/
def join_gens_loop (joined : String) : List String → Option String
  | [] => some joined
  | s :: rest =>
    match checked_sub joined.length 1 with
    | none => none
    | some i =>
      let j1 := string_insert_str joined i s
      match checked_sub j1.length 1 with
      | none => none
      | some i2 => join_gens_loop (string_insert_str j1 i2 "|") rest

/-- The per-item commit loop of `safe_batch_transfer_from`; `i` is the running
index into `gens`, which is only consulted (and bounds-checked: `gens[i]` out
of range traps) for non-fungible items.  A failing item aborts with earlier
items already committed. -/
def batch_transfer_loop (env : Env) (σ : State) (from_ to_ : Nat)
    (gens : List String) : List (Nat × Nat) → Nat →
    Option (State × Except Error Unit)
  | [], _ => some (σ, .ok ())
  | (tid, val) :: rest, i =>
    match transfer_token_impl σ env.caller tid from_ to_ val with
    | (σ1, .error e) => some (σ1, .error e)
    | (σ1, .ok _) =>
      let σ2 := {σ1 with approvals := removeA σ1.approvals (env.caller, from_)}
      match get_token_type_single_impl σ2 tid with
      | .error e => some (σ2, .error e)
      | .ok (_, k) =>
        if k = TokenKind.Nft then
          match gens.get? i with
          | none => none
          | some g =>
            match transfer_nft_impl env σ2 tid from_ to_ g with
            | (σ3, .error e) => some (σ3, .error e)
            | (σ3, .ok _) =>
              let σ4 := {σ3 with nft_approvals := removeA σ3.nft_approvals (env.caller, from_)}
              batch_transfer_loop env σ4 from_ to_ gens rest (i + 1)
        else batch_transfer_loop env σ2 from_ to_ gens rest (i + 1)

/-- Argument checks, payload join, acceptance call and commit loop of
`safe_batch_transfer_from`: everything after the operator-authorisation check. -/
def safe_batch_after_auth (env : Env) (cb : Callback) (σ : State)
    (from_ to_ : Nat) (token_ids : List Nat) (values : List Nat)
    (gens : List String) : Option (State × Except Error Unit) :=
  if to_ = 0 then some (σ, .error .BadAdress)
  else if to_ = from_ then some (σ, .error .SelfOperation)
  else if token_ids = [] then some (σ, .error .WrongArgument)
  else if token_ids.length ≠ values.length then some (σ, .error .WrongArgument)
  else
    match join_gens_loop "" gens with
    | none => none
    | some joined =>
      match transfer_acceptance_check_impl cb σ env.caller from_ to_ token_ids
          values joined true with
      | none => none
      | some (σc, .error e) => some (σc, .error e)
      | some (σc, .ok _) =>
        batch_transfer_loop env σc from_ to_ gens (token_ids.zip values) 0

/-- Public message `safe_batch_transfer_from`. -/
def safe_batch_transfer_from (env : Env) (cb : Callback) (σ : State)
    (from_ to_ : Nat) (token_ids : List Nat) (values : List Nat)
    (gens : List String) : Option (State × Except Error Unit) :=
  let caller := env.caller
  if caller ≠ from_ then
    match is_approved_impl env σ from_ caller none none with
    | .error _ => some (σ, .error .PermissionDenied)
    | .ok is_approved =>
      if ¬ is_approved then some (σ, .error .PermissionDenied)
      else safe_batch_after_auth env cb σ from_ to_ token_ids values gens
  else safe_batch_after_auth env cb σ from_ to_ token_ids values gens

/-- Receiver message `on_received` of this very contract: accepts everything
by returning the single-transfer magic bytes. -/
def on_received (_operator _from : Nat) (_token_id : Nat)
    (_value : Nat) (_data : String) : List Nat :=
  [0xf2, 0x3a, 0x6e, 0x61]

/-- Receiver message `on_batch_received` of this very contract: accepts
everything by returning the batch magic bytes. -/
def on_batch_received (_operator _from : Nat) (_token_ids : List Nat)
    (_values : List Nat) (_data : String) : List Nat :=
  [0xbc, 0x19, 0x7c, 0x81]

/-- The redundant-mirror invariant of the spec: for every account and every
token id registered as non-fungible, the stored integer balance equals the
number of identities in the account's instance list. -/
def mirrorInvariant (σ : State) : Prop :=
  ∀ a t nm, lookupA σ.token_infomations t = some (nm, TokenKind.Nft) →
    balance_of_single_impl σ a t = ((lookupA σ.nfts (a, t)).getD []).length

/-- Total amount a batch moves at one token id. -/
def sumAt (t : Nat) : List (Nat × Nat) → Nat
  | [] => 0
  | (tid, v) :: rest => (if tid = t then v else 0) + sumAt t rest

/-! Concrete fixtures used by witnesses and counterexamples. -/

/-- A concrete stand-in for the environment's hash function. -/
def hashLen : String → Nat := fun s => s.length

/-- A recipient with no executable code: the callback leaves the state alone. -/
def cbNone : Callback := fun σ => (σ, CallResult.codeNotFound)

def envW : Env := { caller := 1, contractAddress := 99, transferredValue := 0, hashFn := hashLen }

def env5 : Env := { caller := 5, contractAddress := 99, transferredValue := 0, hashFn := hashLen }

def env10 : Env := { caller := 5, contractAddress := 99, transferredValue := 500, hashFn := hashLen }

/-- Bootstrap-only state: just the currency type, pool at account 99. -/
def σ8 : State :=
  { founder := 1, variety_of_tokens := 1,
    token_infomations := [(0, ("SKMiZ", TokenKind.Ft))],
    balances := [], nfts := [], approvals := [], nft_approvals := [] }

/-- Currency plus an NFT type; account 1 owns one instance of token 1
(identity `hashLen "g" = 1`) with a consistent mirror balance. -/
def σ7 : State :=
  { founder := 1, variety_of_tokens := 2,
    token_infomations := [(1, ("weapon", TokenKind.Nft)), (0, ("SKMiZ", TokenKind.Ft))],
    balances := [((1, 1), 1)], nfts := [((1, 1), [1])],
    approvals := [], nft_approvals := [] }

/-- Account 5 has 150 currency and already owns the instance `hashLen "g" = 1`
of NFT token 1. -/
def σ2A : State :=
  { founder := 1, variety_of_tokens := 2,
    token_infomations := [(1, ("weapon", TokenKind.Nft)), (0, ("SKMiZ", TokenKind.Ft))],
    balances := [((5, 0), 150)], nfts := [((5, 1), [1])],
    approvals := [], nft_approvals := [] }

/-- Account 5 has 150 currency, the pool already holds `u128::MAX` currency. -/
def σ5 : State :=
  { founder := 1, variety_of_tokens := 2,
    token_infomations := [(1, ("weapon", TokenKind.Nft)), (0, ("SKMiZ", TokenKind.Ft))],
    balances := [((5, 0), 150), ((99, 0), U128_MAX)], nfts := [],
    approvals := [], nft_approvals := [] }

/-- Account 5 has 150 currency, owns no instances. -/
def σ5b : State :=
  { founder := 1, variety_of_tokens := 2,
    token_infomations := [(1, ("weapon", TokenKind.Nft)), (0, ("SKMiZ", TokenKind.Ft))],
    balances := [((5, 0), 150)], nfts := [], approvals := [], nft_approvals := [] }

/-- Pool holds 1000 currency, account 5 already holds `u128::MAX` currency. -/
def σ10 : State :=
  { founder := 1, variety_of_tokens := 1,
    token_infomations := [(0, ("SKMiZ", TokenKind.Ft))],
    balances := [((99, 0), 1000), ((5, 0), U128_MAX)], nfts := [],
    approvals := [], nft_approvals := [] }

/-- Account 1 holds 10 currency. -/
def σW1 : State :=
  { founder := 1, variety_of_tokens := 1,
    token_infomations := [(0, ("SKMiZ", TokenKind.Ft))],
    balances := [((1, 0), 10)], nfts := [], approvals := [], nft_approvals := [] }

/-- Owner 5 granted operator 7 Limited approval over NFT token 1 and the
instance `hashLen "g" = 1`. -/
def σ3w : State :=
  { founder := 1, variety_of_tokens := 2,
    token_infomations := [(1, ("weapon", TokenKind.Nft)), (0, ("SKMiZ", TokenKind.Ft))],
    balances := [], nfts := [((5, 1), [1])],
    approvals := [((5, 7), (ApprovalScope.Some, [1]))],
    nft_approvals := [((5, 7), [1])] }

/-- Result of transferring 5 units of currency from account 1 to account 2
in `σW1`. -/
def σW1f : State :=
  { founder := 1, variety_of_tokens := 1,
    token_infomations := [(0, ("SKMiZ", TokenKind.Ft))],
    balances := [((2, 0), 5), ((1, 0), 5), ((1, 0), 10)],
    nfts := [], approvals := [], nft_approvals := [] }

/-- Result of `safe_transfer_from` moving the instance of token 1 from
account 1 to account 2 in `σ7`: note the sender's `nfts` entry still holds
the identity. -/
def σ7f : State :=
  { founder := 1, variety_of_tokens := 2,
    token_infomations := [(1, ("weapon", TokenKind.Nft)), (0, ("SKMiZ", TokenKind.Ft))],
    balances := [((2, 1), 1), ((1, 1), 0), ((1, 1), 1)],
    nfts := [((2, 1), [1]), ((1, 1), [1])],
    approvals := [], nft_approvals := [] }

/-- Pool holds 1000 currency, buyer 5 holds nothing yet. -/
def σ10b : State :=
  { founder := 1, variety_of_tokens := 1,
    token_infomations := [(0, ("SKMiZ", TokenKind.Ft))],
    balances := [((99, 0), 1000)], nfts := [], approvals := [], nft_approvals := [] }

/-! Map and balance lemmas. -/

theorem lookupA_insertA_self {α β : Type} [DecidableEq α] (m : List (α × β)) (k : α) (v : β) :
    lookupA (insertA m k v) k = some v := by
  simp [lookupA, insertA]

theorem lookupA_insertA_ne {α β : Type} [DecidableEq α] (m : List (α × β)) (k k' : α) (v : β)
    (h : k' ≠ k) : lookupA (insertA m k v) k' = lookupA m k' := by
  simp [lookupA, insertA, h]

theorem containsA_iff {α : Type} [DecidableEq α] (l : List α) (a : α) :
    containsA l a = true ↔ a ∈ l := by
  induction l with
  | nil => simp [containsA]
  | cons x rest ih =>
    by_cases h : a = x <;> simp [containsA, h, ih]

/-- Balance reading after the double write done by `transfer_token_impl`. -/
theorem bal_after_double_insert (σ : State) (a b : Nat) (tid : Nat)
    (x y : Nat) (c : Nat) (t : Nat) :
    balance_of_single_impl
      {σ with balances := insertA (insertA σ.balances (a, tid) x) (b, tid) y} c t
    = if (c, t) = (b, tid) then y
      else if (c, t) = (a, tid) then x
      else balance_of_single_impl σ c t := by
  by_cases h1 : (c, t) = (b, tid)
  · simp [balance_of_single_impl, h1, lookupA_insertA_self]
  · rw [if_neg h1]
    by_cases h2 : (c, t) = (a, tid)
    · rw [if_pos h2]
      simp only [balance_of_single_impl]
      rw [lookupA_insertA_ne _ _ _ _ h1, h2, lookupA_insertA_self]
      simp
    · rw [if_neg h2]
      simp only [balance_of_single_impl]
      rw [lookupA_insertA_ne _ _ _ _ h1, lookupA_insertA_ne _ _ _ _ h2]

/-- Characterisation of a successful `transfer_token_impl` between distinct
accounts: the commit-time balance check passed, the two balances move by
exactly `amount`, and nothing else changes. -/
theorem transfer_token_impl_ok {σ σ' : State} {op : Nat} {tid : Nat}
    {a b : Nat} {amt r : Nat} (hab : a ≠ b)
    (h : transfer_token_impl σ op tid a b amt = (σ', .ok r)) :
    amt ≤ balance_of_single_impl σ a tid ∧
    (∀ t, balance_of_single_impl σ' a t
        = balance_of_single_impl σ a t - (if t = tid then amt else 0)) ∧
    (∀ t, balance_of_single_impl σ' b t
        = balance_of_single_impl σ b t + (if t = tid then amt else 0)) ∧
    (∀ c t, c ≠ a → c ≠ b → balance_of_single_impl σ' c t = balance_of_single_impl σ c t) ∧
    σ'.nfts = σ.nfts ∧ σ'.approvals = σ.approvals ∧ σ'.nft_approvals = σ.nft_approvals ∧
    σ'.token_infomations = σ.token_infomations ∧
    σ'.variety_of_tokens = σ.variety_of_tokens ∧ σ'.founder = σ.founder := by
  by_cases hlt : balance_of_single_impl σ a tid < amt
  · simp [transfer_token_impl, hlt, Prod.ext_iff] at h
  · have hle : amt ≤ balance_of_single_impl σ a tid := Nat.le_of_not_lt hlt
    by_cases hov : balance_of_single_impl σ b tid + amt ≤ U128_MAX
    · simp only [transfer_token_impl, checked_sub, checked_add, if_neg hlt, if_pos hle,
        if_pos hov] at h
      injection h with h1 h2
      injection h2 with h2
      subst h1
      refine ⟨hle, ?_, ?_, ?_, rfl, rfl, rfl, rfl, rfl, rfl⟩
      · intro t
        rw [bal_after_double_insert]
        have hne1 : (a, t) ≠ (b, tid) := by
          intro hcontra
          exact hab (congrArg Prod.fst hcontra)
        rw [if_neg hne1]
        by_cases ht : t = tid
        · subst ht
          simp
        · rw [if_neg (by simp [ht]), if_neg ht]
          simp
      · intro t
        rw [bal_after_double_insert]
        by_cases ht : t = tid
        · subst ht
          simp
        · rw [if_neg (by simp [ht]), if_neg (by simp [ht]), if_neg ht]
          simp
      · intro c t hca hcb
        rw [bal_after_double_insert]
        rw [if_neg (by simp [hcb]), if_neg (by simp [hca])]
    · simp [transfer_token_impl, hlt, checked_sub, checked_add, hle, hov, Prod.ext_iff] at h

theorem bal_balances_eq {σ σ' : State} (h : σ'.balances = σ.balances)
    (c : Nat) (t : Nat) :
    balance_of_single_impl σ' c t = balance_of_single_impl σ c t := by
  simp [balance_of_single_impl, h]

/-- Frame property: `transfer_nft_impl` only touches the `nfts` field. -/
theorem transfer_nft_impl_frame (env : Env) (σ : State) (tid : Nat)
    (a b : Nat) (gen : String) :
    ((transfer_nft_impl env σ tid a b gen).1).balances = σ.balances ∧
    ((transfer_nft_impl env σ tid a b gen).1).approvals = σ.approvals ∧
    ((transfer_nft_impl env σ tid a b gen).1).nft_approvals = σ.nft_approvals ∧
    ((transfer_nft_impl env σ tid a b gen).1).token_infomations = σ.token_infomations := by
  unfold transfer_nft_impl
  dsimp only []
  repeat' split
  all_goals exact ⟨rfl, rfl, rfl, rfl⟩

/-- Whatever the callback did, a non-`none` acceptance result carries exactly
the callback's post-state. -/
theorem acceptance_ok_state {cb : Callback} {σ : State} {op f t : Nat}
    {ids : List Nat} {vals : List Nat} {data : String} {ub : Bool}
    {σc : State} {r : Except Error Unit}
    (h : transfer_acceptance_check_impl cb σ op f t ids vals data ub = some (σc, r)) :
    σc = (cb σ).1 := by
  unfold transfer_acceptance_check_impl at h
  split at h
  · simp at h
  · rcases hc : cb σ with ⟨σ1, ret⟩
    rw [hc] at h
    cases ret with
    | success v =>
      simp only [] at h
      split at h
      · simp at h
      · simp [Prod.ext_iff] at h
        exact h.1.symm
    | codeNotFound => simp [Prod.ext_iff] at h; exact h.1.symm
    | notCallable => simp [Prod.ext_iff] at h; exact h.1.symm
    | otherError => simp [Prod.ext_iff] at h; exact h.1.symm

/-- Balance bookkeeping of a successful commit tail. -/
theorem safe_transfer_commit_ok_facts {env : Env} {σ σf : State}
    {from_ to_ : Nat} {tid : Nat} {amt : Nat} {gen : String}
    (hne : from_ ≠ to_)
    (h : safe_transfer_commit env σ from_ to_ tid amt gen = (σf, .ok ())) :
    amt ≤ balance_of_single_impl σ from_ tid ∧
    (∀ t, balance_of_single_impl σf from_ t
        = balance_of_single_impl σ from_ t - (if t = tid then amt else 0)) ∧
    (∀ t, balance_of_single_impl σf to_ t
        = balance_of_single_impl σ to_ t + (if t = tid then amt else 0)) ∧
    (∀ c t, c ≠ from_ → c ≠ to_ →
      balance_of_single_impl σf c t = balance_of_single_impl σ c t) := by
  unfold safe_transfer_commit at h
  dsimp only [] at h
  rcases heq : transfer_token_impl σ env.caller tid from_ to_ amt with ⟨σ2, r2⟩
  rw [heq] at h
  cases r2 with
  | error e => simp [Prod.ext_iff] at h
  | ok val =>
    obtain ⟨h1, h2, h3, h4, _, _, _, _, _, _⟩ := transfer_token_impl_ok hne heq
    dsimp only [] at h
    have hfbal : σf.balances = σ2.balances := by
      rcases hk : get_token_type_single_impl
          {σ2 with approvals := removeA σ2.approvals (env.caller, from_)} tid with e | ⟨nm, k⟩
      · rw [hk] at h
        simp [Prod.ext_iff] at h
      · rw [hk] at h
        dsimp only [] at h
        by_cases hknft : k = TokenKind.Nft
        · rw [if_pos hknft] at h
          rcases hnft : transfer_nft_impl env
              {σ2 with approvals := removeA σ2.approvals (env.caller, from_)}
              tid from_ to_ gen with ⟨σ4, r4⟩
          rw [hnft] at h
          cases r4 with
          | error e => simp [Prod.ext_iff] at h
          | ok u =>
            dsimp only [] at h
            have hσf : {σ4 with nft_approvals := removeA σ4.nft_approvals (env.caller, from_)} = σf :=
              congrArg Prod.fst h
            have hb4 : σ4.balances = σ2.balances := by
              have := (transfer_nft_impl_frame env
                {σ2 with approvals := removeA σ2.approvals (env.caller, from_)}
                tid from_ to_ gen).1
              rw [hnft] at this
              exact this
            rw [← hσf]
            exact hb4
        · rw [if_neg hknft] at h
          have hσf : ({σ2 with approvals := removeA σ2.approvals (env.caller, from_)} : State) = σf :=
            congrArg Prod.fst h
          rw [← hσf]
    have hfb := bal_balances_eq hfbal
    exact ⟨h1, fun t => by rw [hfb, h2], fun t => by rw [hfb, h3],
      fun c t hc1 hc2 => by rw [hfb, h4 c t hc1 hc2]⟩

/-- A committed `safe_transfer_from` ran the commit tail on the callback's
post-state, with distinct `from` and `to`. -/
theorem safe_transfer_from_ok_extract {env : Env} {cb : Callback} {σ σf : State}
    {from_ to_ : Nat} {tid : Nat} {amt : Nat} {gen : String}
    (h : safe_transfer_from env cb σ from_ to_ tid amt gen = some (σf, .ok ())) :
    from_ ≠ to_ ∧
    safe_transfer_commit env (cb σ).1 from_ to_ tid amt gen = (σf, .ok ()) := by
  have main : safe_transfer_after_auth env cb σ from_ to_ tid amt gen = some (σf, .ok ()) := by
    unfold safe_transfer_from at h
    dsimp only [] at h
    split at h
    · split at h
      · simp [Prod.ext_iff] at h
      · split at h
        · simp [Prod.ext_iff] at h
        · exact h
    · exact h
  clear h
  unfold safe_transfer_after_auth at main
  split at main
  · simp [Prod.ext_iff] at main
  · split at main
    · simp [Prod.ext_iff] at main
    next hto =>
      split at main
      · simp at main
      · simp [Prod.ext_iff] at main
      next σc u heq =>
        have hσc : σc = (cb σ).1 := acceptance_ok_state heq
        refine ⟨fun hcontra => hto hcontra.symm, ?_⟩
        rw [← hσc]
        simp only [Option.some.injEq] at main
        exact main

/-- Balance bookkeeping of a successful commit loop of a batch transfer:
walking the (token id, value) pairs, the sender loses and the recipient gains
exactly `sumAt t` at every token id, and every commit-time check passed. -/
theorem batch_transfer_loop_ok_facts {env : Env} {from_ to_ : Nat}
    {gens : List String} (hne : from_ ≠ to_) :
    ∀ (pairs : List (Nat × Nat)) (i : Nat) (σ σf : State),
      batch_transfer_loop env σ from_ to_ gens pairs i = some (σf, .ok ()) →
      (∀ t, sumAt t pairs ≤ balance_of_single_impl σ from_ t ∧
        balance_of_single_impl σf from_ t
          = balance_of_single_impl σ from_ t - sumAt t pairs ∧
        balance_of_single_impl σf to_ t
          = balance_of_single_impl σ to_ t + sumAt t pairs) ∧
      (∀ c t, c ≠ from_ → c ≠ to_ →
        balance_of_single_impl σf c t = balance_of_single_impl σ c t) := by
  intro pairs
  induction pairs with
  | nil =>
    intro i σ σf h
    simp only [batch_transfer_loop, Option.some.injEq, Prod.mk.injEq] at h
    rw [← h.1]
    exact ⟨fun t => ⟨Nat.zero_le _, by simp [sumAt], by simp [sumAt]⟩,
      fun c t _ _ => rfl⟩
  | cons hd rest ih =>
    obtain ⟨tid, val⟩ := hd
    intro i σ σf h
    simp only [batch_transfer_loop] at h
    rcases heq : transfer_token_impl σ env.caller tid from_ to_ val with ⟨σ1, r1⟩
    rw [heq] at h
    cases r1 with
    | error e => simp [Prod.ext_iff] at h
    | ok v1 =>
      obtain ⟨h1, h2, h3, h4, _, _, _, _, _, _⟩ := transfer_token_impl_ok hne heq
      dsimp only [] at h
      have key : ∀ σ4 : State, σ4.balances = σ1.balances →
          batch_transfer_loop env σ4 from_ to_ gens rest (i + 1) = some (σf, .ok ()) →
          (∀ t, sumAt t ((tid, val) :: rest) ≤ balance_of_single_impl σ from_ t ∧
            balance_of_single_impl σf from_ t
              = balance_of_single_impl σ from_ t - sumAt t ((tid, val) :: rest) ∧
            balance_of_single_impl σf to_ t
              = balance_of_single_impl σ to_ t + sumAt t ((tid, val) :: rest)) ∧
          (∀ c t, c ≠ from_ → c ≠ to_ →
            balance_of_single_impl σf c t = balance_of_single_impl σ c t) := by
        intro σ4 hb4 hrest
        obtain ⟨ihA, ihB⟩ := ih (i + 1) σ4 σf hrest
        have hb4' := bal_balances_eq hb4
        constructor
        · intro t
          obtain ⟨ia, ib, ic⟩ := ihA t
          rw [hb4'] at ia ib ic
          have hsum : sumAt t ((tid, val) :: rest)
              = (if tid = t then val else 0) + sumAt t rest := rfl
          rw [hsum]
          by_cases ht : t = tid
          · subst ht
            have e2 := h2 t
            have e3 := h3 t
            rw [if_pos rfl] at e2 e3 ⊢
            omega
          · have ht' : ¬ tid = t := fun hc => ht hc.symm
            have e2 := h2 t
            have e3 := h3 t
            rw [if_neg ht] at e2 e3
            rw [if_neg ht']
            omega
        · intro c t hc1 hc2
          rw [ihB c t hc1 hc2, hb4', h4 c t hc1 hc2]
      rcases hk : get_token_type_single_impl
          {σ1 with approvals := removeA σ1.approvals (env.caller, from_)} tid with e | ⟨nm, k⟩
      · rw [hk] at h
        simp [Prod.ext_iff] at h
      · rw [hk] at h
        dsimp only [] at h
        by_cases hknft : k = TokenKind.Nft
        · rw [if_pos hknft] at h
          rcases hg : gens.get? i with _ | g
          · rw [hg] at h; simp at h
          · rw [hg] at h
            dsimp only [] at h
            rcases hnft : transfer_nft_impl env
                {σ1 with approvals := removeA σ1.approvals (env.caller, from_)}
                tid from_ to_ g with ⟨σ3, r3⟩
            rw [hnft] at h
            cases r3 with
            | error e => simp [Prod.ext_iff] at h
            | ok u =>
              dsimp only [] at h
              have hb3 : σ3.balances = σ1.balances := by
                have := (transfer_nft_impl_frame env
                  {σ1 with approvals := removeA σ1.approvals (env.caller, from_)}
                  tid from_ to_ g).1
                rw [hnft] at this
                exact this
              exact key {σ3 with nft_approvals := removeA σ3.nft_approvals (env.caller, from_)}
                hb3 h
        · rw [if_neg hknft] at h
          exact key {σ1 with approvals := removeA σ1.approvals (env.caller, from_)} rfl h

/-- A committed `safe_batch_transfer_from` ran the commit loop on the
callback's post-state, with distinct `from` and `to`. -/
theorem safe_batch_transfer_from_ok_extract {env : Env} {cb : Callback}
    {σ σf : State} {from_ to_ : Nat} {token_ids : List Nat}
    {values : List Nat} {gens : List String}
    (h : safe_batch_transfer_from env cb σ from_ to_ token_ids values gens
      = some (σf, .ok ())) :
    from_ ≠ to_ ∧
    batch_transfer_loop env (cb σ).1 from_ to_ gens (token_ids.zip values) 0
      = some (σf, .ok ()) := by
  have main : safe_batch_after_auth env cb σ from_ to_ token_ids values gens
      = some (σf, .ok ()) := by
    unfold safe_batch_transfer_from at h
    dsimp only [] at h
    split at h
    · split at h
      · simp [Prod.ext_iff] at h
      · split at h
        · simp [Prod.ext_iff] at h
        · exact h
    · exact h
  clear h
  unfold safe_batch_after_auth at main
  split at main
  · simp [Prod.ext_iff] at main
  · split at main
    · simp [Prod.ext_iff] at main
    next hto =>
      split at main
      · simp [Prod.ext_iff] at main
      · split at main
        · simp [Prod.ext_iff] at main
        · split at main
          · simp at main
          · split at main
            · simp at main
            · simp [Prod.ext_iff] at main
            next σc u heq =>
              have hσc : σc = (cb σ).1 := acceptance_ok_state heq
              rw [hσc] at main
              exact ⟨fun hcontra => hto hcontra.symm, main⟩

/-- Any error of `transfer_token_impl` is raised before its two balance
writes, so the state comes back unchanged. -/
theorem transfer_token_impl_err {σ σ' : State} {op tid a b amt : Nat} {e : Error}
    (h : transfer_token_impl σ op tid a b amt = (σ', .error e)) : σ' = σ := by
  unfold transfer_token_impl at h
  dsimp only [] at h
  split at h
  · simp [Prod.ext_iff] at h
    exact h.1.symm
  · split at h
    · simp [Prod.ext_iff] at h
      exact h.1.symm
    · split at h
      · simp [Prod.ext_iff] at h
        exact h.1.symm
      · simp [Prod.ext_iff] at h

/-- The registry lookup can only fail with `NotFound`. -/
theorem get_token_type_err {σ : State} {tid : Nat} {e : Error}
    (h : get_token_type_single_impl σ tid = .error e) : e = .NotFound := by
  unfold get_token_type_single_impl at h
  split at h
  · simp at h
  · simp at h
    exact h.symm

/-- Lemma: `create_nft_impl` can only fail with `AlreadyExist` or `Overflow`. -/
theorem create_nft_impl_err_shape {env : Env} {σ σ' : State} {tid : Nat}
    {gen : String} {e : Error}
    (h : create_nft_impl env σ tid gen = (σ', .error e)) :
    e = .AlreadyExist ∨ e = .Overflow := by
  unfold create_nft_impl at h
  dsimp only [] at h
  split at h
  · split at h
    · simp [Prod.ext_iff] at h
      exact Or.inl h.2.symm
    · split at h
      · simp [Prod.ext_iff] at h
        exact Or.inr h.2.symm
      · simp [Prod.ext_iff] at h
  · split at h
    · simp [Prod.ext_iff] at h
      exact Or.inr h.2.symm
    · simp [Prod.ext_iff] at h

/-- The per-seed loop of `set_approval` can only fail with `PermissionDenied`. -/
theorem set_approval_gen_loop_err {env : Env} {operator tid : Nat}
    {owned : List Nat} :
    ∀ (gens : List String) (σ σ' : State) (e : Error),
      set_approval_gen_loop env σ operator tid owned gens = (σ', .error e) →
      e = .PermissionDenied := by
  intro gens
  induction gens with
  | nil =>
    intro σ σ' e h
    simp [set_approval_gen_loop, Prod.ext_iff] at h
  | cons g rest ih =>
    intro σ σ' e h
    simp only [set_approval_gen_loop] at h
    split at h
    · simp [Prod.ext_iff] at h
      exact h.2.symm
    · exact ih _ _ _ h

/-- The entry loop of `set_approval` can only fail with `NotFound`,
`WrongArgument` or `PermissionDenied`. -/
theorem set_approval_loop_err {env : Env} {operator : Nat} :
    ∀ (toks : List (Nat × Option (List String))) (σ σ' : State) (e : Error),
      set_approval_loop env σ operator toks = (σ', .error e) →
      e = .NotFound ∨ e = .WrongArgument ∨ e = .PermissionDenied := by
  intro toks
  induction toks with
  | nil =>
    intro σ σ' e h
    simp [set_approval_loop, Prod.ext_iff] at h
  | cons hd rest ih =>
    obtain ⟨id, opv⟩ := hd
    intro σ σ' e h
    simp only [set_approval_loop] at h
    split at h
    next e' heq =>
      simp [Prod.ext_iff] at h
      exact Or.inl (h.2.symm.trans (get_token_type_err heq))
    next p heq =>
      split at h
      · exact ih _ _ _ h
      · split at h
        · simp [Prod.ext_iff] at h
          exact Or.inr (Or.inl h.2.symm)
        · split at h
          · simp [Prod.ext_iff] at h
            exact Or.inl h.2.symm
          · split at h
            · exact ih _ _ _ h
            next σ1 e2 heq2 =>
              simp [Prod.ext_iff] at h
              exact Or.inr (Or.inr (h.2.symm.trans (set_approval_gen_loop_err _ _ _ _ heq2)))

/-- Successful `transfer_token_impl` computed forward from its two checks. -/
theorem transfer_token_impl_ok_of {σ : State} {op tid a b amt : Nat}
    (h1 : amt ≤ balance_of_single_impl σ a tid)
    (h2 : balance_of_single_impl σ b tid + amt ≤ U128_MAX) :
    transfer_token_impl σ op tid a b amt
      = ({σ with balances := insertA (insertA σ.balances (a, tid) (balance_of_single_impl σ a tid - amt)) (b, tid) (balance_of_single_impl σ b tid + amt)}, .ok amt) := by
  unfold transfer_token_impl
  simp [checked_sub, checked_add, Nat.not_lt.mpr h1, h1, h2]

/-! Claim theorems. -/

/-- C1: For every invocation of `safe_transfer_from` or
`safe_batch_transfer_from`, a recipient callback that re-enters the ledger
during the acceptance check (which runs before Commit) cannot cause more
total value of a fungible token to leave the sender's account than the
sender's balance at the start of the outer transfer: provided the callback
does not credit the sender (its post-state sender balance is no larger than
before), the value spent during the callback plus the outer transfer's
amount(s) at that token id is bounded by the initial balance.  The Commit
step re-reads balances after the callback, so a reentrancy double-spend is
impossible. -/
theorem C1_no_reentrancy_double_spend (env : Env) (cb : Callback) (σ0 : State)
    (from_ tid : Nat)
    (hcb : balance_of_single_impl (cb σ0).1 from_ tid
      ≤ balance_of_single_impl σ0 from_ tid) :
    (∀ to_ amount gen,
      txSucceeds (safe_transfer_from env cb σ0 from_ to_ tid amount gen) = true →
      (balance_of_single_impl σ0 from_ tid - balance_of_single_impl (cb σ0).1 from_ tid)
        + amount ≤ balance_of_single_impl σ0 from_ tid) ∧
    (∀ to_ token_ids values gens,
      txSucceeds (safe_batch_transfer_from env cb σ0 from_ to_ token_ids values gens) = true →
      (balance_of_single_impl σ0 from_ tid - balance_of_single_impl (cb σ0).1 from_ tid)
        + sumAt tid (token_ids.zip values) ≤ balance_of_single_impl σ0 from_ tid) := by
  constructor
  · intro to_ amount gen hs
    rcases hr : safe_transfer_from env cb σ0 from_ to_ tid amount gen with _ | ⟨σf, r⟩
    · rw [hr] at hs; simp [txSucceeds] at hs
    · rw [hr] at hs
      cases r with
      | error e => simp [txSucceeds] at hs
      | ok u =>
        cases u
        obtain ⟨hne, hcommit⟩ := safe_transfer_from_ok_extract hr
        obtain ⟨h1, _, _, _⟩ := safe_transfer_commit_ok_facts hne hcommit
        omega
  · intro to_ token_ids values gens hs
    rcases hr : safe_batch_transfer_from env cb σ0 from_ to_ token_ids values gens
      with _ | ⟨σf, r⟩
    · rw [hr] at hs; simp [txSucceeds] at hs
    · rw [hr] at hs
      cases r with
      | error e => simp [txSucceeds] at hs
      | ok u =>
        cases u
        obtain ⟨hne, hloop⟩ := safe_batch_transfer_from_ok_extract hr
        obtain ⟨hA, _⟩ := batch_transfer_loop_ok_facts hne (token_ids.zip values)
          0 (cb σ0).1 σf hloop
        obtain ⟨ha, _, _⟩ := hA tid
        omega

/-- Witness for C1 at a concrete run: account 1 holds 10 units of currency
and transfers 5 to account 2 with a code-less recipient. -/
theorem C1_witness :
    (balance_of_single_impl σW1 1 0 - balance_of_single_impl (cbNone σW1).1 1 0) + 5
      ≤ balance_of_single_impl σW1 1 0 :=
  (C1_no_reentrancy_double_spend envW cbNone σW1 1 0 (by decide)).1 2 5 "" (by decide)

/-- C6: For every successful single or batch transfer (with a recipient whose
callback does not mutate the ledger), `balance_of from + balance_of to` is
unchanged at every token id, and the balance of every other account is
untouched (conservation). -/
theorem C6_conservation (env : Env) (cb : Callback) (σ0 σf : State)
    (from_ to_ : Nat) (hcb : (cb σ0).1 = σ0) :
    (∀ tid amount gen,
      safe_transfer_from env cb σ0 from_ to_ tid amount gen = some (σf, .ok ()) →
      (∀ t, balance_of σf from_ t + balance_of σf to_ t
          = balance_of σ0 from_ t + balance_of σ0 to_ t) ∧
      (∀ a t, a ≠ from_ → a ≠ to_ → balance_of σf a t = balance_of σ0 a t)) ∧
    (∀ token_ids values gens,
      safe_batch_transfer_from env cb σ0 from_ to_ token_ids values gens
        = some (σf, .ok ()) →
      (∀ t, balance_of σf from_ t + balance_of σf to_ t
          = balance_of σ0 from_ t + balance_of σ0 to_ t) ∧
      (∀ a t, a ≠ from_ → a ≠ to_ → balance_of σf a t = balance_of σ0 a t)) := by
  constructor
  · intro tid amount gen hr
    obtain ⟨hne, hcommit⟩ := safe_transfer_from_ok_extract hr
    rw [hcb] at hcommit
    obtain ⟨h1, h2, h3, h4⟩ := safe_transfer_commit_ok_facts hne hcommit
    constructor
    · intro t
      have e2 := h2 t
      have e3 := h3 t
      simp only [balance_of]
      by_cases ht : t = tid
      · subst ht
        rw [if_pos rfl] at e2 e3
        omega
      · rw [if_neg ht] at e2 e3
        omega
    · intro a t ha1 ha2
      simpa [balance_of] using h4 a t ha1 ha2
  · intro token_ids values gens hr
    obtain ⟨hne, hloop⟩ := safe_batch_transfer_from_ok_extract hr
    rw [hcb] at hloop
    obtain ⟨hA, hB⟩ := batch_transfer_loop_ok_facts hne (token_ids.zip values) 0 σ0 σf hloop
    constructor
    · intro t
      obtain ⟨ha, hb, hc⟩ := hA t
      simp only [balance_of]
      omega
    · intro a t ha1 ha2
      simpa [balance_of] using hB a t ha1 ha2

/-- Witness for C6 at a concrete run: transferring 5 units of currency from
account 1 (balance 10) to account 2 conserves the pairwise sum. -/
theorem C6_witness :
    balance_of σW1f 1 0 + balance_of σW1f 2 0 = balance_of σW1 1 0 + balance_of σW1 2 0 :=
  ((C6_conservation envW cbNone σW1 σW1f 1 2 rfl).1 0 5 "" rfl).1 0

/-- C3: `is_approved` resolves exactly as specified: no approvals entry gives
`Ok false`; a `Full`-scope (`All`) entry gives `Ok true` regardless of the
other arguments; a Limited-scope (`Some`) entry with no token id gives
`Err WrongArgument`; with a fungible token id it gives `Ok true` iff the id
is in the entry's list; with a non-fungible token id it gives
`Err WrongArgument` without a seed, and with a seed `Ok true` iff the id is
listed and the seed's derived identity is in the `nft_approvals` entry. -/
theorem C3_is_approved_resolution (env : Env) (σ : State) (owner operator : Nat) :
    (lookupA σ.approvals (owner, operator) = none →
      ∀ otid ogen, is_approved_impl env σ owner operator otid ogen = .ok false) ∧
    (∀ v, lookupA σ.approvals (owner, operator) = some (ApprovalScope.All, v) →
      ∀ otid ogen, is_approved_impl env σ owner operator otid ogen = .ok true) ∧
    (∀ v, lookupA σ.approvals (owner, operator) = some (ApprovalScope.Some, v) →
      ∀ ogen, is_approved_impl env σ owner operator none ogen = .error .WrongArgument) ∧
    (∀ v tid nm, lookupA σ.approvals (owner, operator) = some (ApprovalScope.Some, v) →
      lookupA σ.token_infomations tid = some (nm, TokenKind.Ft) →
      ∀ ogen, (is_approved_impl env σ owner operator (some tid) ogen = .ok true ↔ tid ∈ v)) ∧
    (∀ v tid nm, lookupA σ.approvals (owner, operator) = some (ApprovalScope.Some, v) →
      lookupA σ.token_infomations tid = some (nm, TokenKind.Nft) →
      is_approved_impl env σ owner operator (some tid) none = .error .WrongArgument) ∧
    (∀ v tid nm gen, lookupA σ.approvals (owner, operator) = some (ApprovalScope.Some, v) →
      lookupA σ.token_infomations tid = some (nm, TokenKind.Nft) →
      (is_approved_impl env σ owner operator (some tid) (some gen) = .ok true ↔
        tid ∈ v ∧ gen_to_identity_impl env gen
          ∈ (lookupA σ.nft_approvals (owner, operator)).getD [])) := by
  refine ⟨?_, ?_, ?_, ?_, ?_, ?_⟩
  · intro hl otid ogen
    simp [is_approved_impl, hl]
  · intro v hl otid ogen
    simp [is_approved_impl, hl]
  · intro v hl ogen
    simp [is_approved_impl, hl]
  · intro v tid nm hl hk ogen
    simp [is_approved_impl, hl, get_token_type_single_impl, hk, containsA_iff]
  · intro v tid nm hl hk
    simp [is_approved_impl, hl, get_token_type_single_impl, hk]
  · intro v tid nm gen hl hk
    simp only [is_approved_impl, hl, get_token_type_single_impl, hk]
    by_cases hm : containsA v tid = true
    · rw [if_neg (by simp [hm])]
      rw [containsA_iff] at hm
      simp only [is_approved_single_nft_impl, hm, true_and]
      rcases hn : lookupA σ.nft_approvals (owner, operator) with _ | v'
      · simp [containsA_iff]
      · simp [containsA_iff]
    · rw [if_pos (by simp [hm])]
      rw [show (containsA v tid = true) ↔ tid ∈ v from containsA_iff v tid] at hm
      simp [hm]

/-- Witness for C3: owner 5 granted operator 7 Limited approval over the
non-fungible token 1 including the instance derived from seed "g". -/
theorem C3_witness :
    is_approved_impl env5 σ3w 5 7 (some 1) (some "g") = .ok true :=
  ((C3_is_approved_resolution env5 σ3w 5 7).2.2.2.2.2 [1] 1 "weapon" "g" rfl rfl).mpr
    (by constructor <;> decide)

/-- C4: code bug.  The byte-validation loop compares every returned byte
against `ON_ERC1155_RECEIVED_SELECTOR` — the single-transfer magic — even for
a batch call, so the batch magic (exactly what this contract's own
`on_batch_received` returns) is rejected with `TransferDenied` in batch mode,
while the single-transfer magic is accepted there; an empty return vector is
also accepted even though it is not the magic acknowledgement. -/
theorem C4_batch_magic_rejected :
    on_batch_received 1 2 [1] [1] "" = ON_ERC1155_BATCH_RECEIVED_SELECTOR ∧
    transfer_acceptance_check_impl
        (fun σ => (σ, CallResult.success ON_ERC1155_BATCH_RECEIVED_SELECTOR))
        σ8 1 2 3 [1] [1] "" true
      = some (σ8, .error .TransferDenied) ∧
    transfer_acceptance_check_impl
        (fun σ => (σ, CallResult.success ON_ERC1155_RECEIVED_SELECTOR))
        σ8 1 2 3 [1] [1] "" true
      = some (σ8, .ok ()) ∧
    transfer_acceptance_check_impl
        (fun σ => (σ, CallResult.success [])) σ8 1 2 3 [1] [1] "" true
      = some (σ8, .ok ()) ∧
    transfer_acceptance_check_impl (fun σ => (σ, CallResult.codeNotFound))
        σ8 1 2 3 [1] [1] "" true
      = some (σ8, .ok ()) ∧
    transfer_acceptance_check_impl (fun σ => (σ, CallResult.otherError))
        σ8 1 2 3 [1] [1] "" true
      = some (σ8, .error .TransferDenied) :=
  ⟨rfl, rfl, rfl, rfl, rfl, rfl⟩

/-- C7: code bug.  Starting from a state satisfying the redundant-mirror
invariant, the successful transfer of the single instance of non-fungible
token 1 from account 1 to account 2 breaks the invariant:
`transfer_nft_impl` never writes the sender's updated instance list back to
storage, so the sender keeps the identity in `nfts` while its mirror balance
drops to 0 (and the recipient's list also gains the identity). -/
theorem C7_mirror_invariant_broken :
    mirrorInvariant σ7 ∧
    safe_transfer_from envW cbNone σ7 1 2 1 1 "g" = some (σ7f, .ok ()) ∧
    ¬ mirrorInvariant σ7f := by
  refine ⟨?_, rfl, ?_⟩
  · intro a t nm hl
    simp only [σ7, lookupA] at hl
    by_cases t1 : t = 1
    · subst t1
      by_cases a1 : a = 1
      · subst a1; rfl
      · simp [balance_of_single_impl, σ7, lookupA, a1]
    · rw [if_neg t1] at hl
      by_cases t0 : t = 0
      · subst t0
        simp at hl
      · rw [if_neg t0] at hl
        simp at hl
  · intro hinv
    have h := hinv 1 1 "weapon" (by rfl)
    exact absurd h (by decide)

/-- C9: code bug.  The payload join of `safe_batch_transfer_from` computes the
insertion index `joined.len() - 1` while `joined` is still empty, so the
usize subtraction underflows on the first auxiliary string and the contract
traps; only an empty `gens` list survives the loop (with an empty payload),
so the claimed delimiter-joined concatenation is never produced.  Account 5
batch-transferring one unit of currency with `gens = ["a"]` traps. -/
theorem C9_payload_join_traps :
    join_gens_loop "" ["a"] = none ∧
    safe_batch_transfer_from env5 cbNone σ2A 5 2 [0] [1] ["a"] = none ∧
    join_gens_loop "" [] = some "" :=
  ⟨rfl, rfl, rfl⟩

/-- C2, counterexample: `mint` returning the user error `AlreadyExist` has
already debited the mint fee (account 5 drops from 150 to 50 currency), and
`set_approval` returning the user error `PermissionDenied` on a later seed
has already recorded the approvals of earlier seeds — both mutate state. -/
theorem C2_counterexample :
    (mint env5 σ2A 1 "g").2 = .error .AlreadyExist ∧
    balance_of (mint env5 σ2A 1 "g").1 5 0 = 50 ∧
    balance_of σ2A 5 0 = 150 ∧
    (set_approval env5 σ2A 7 [(1, some ["g", "hh"])]).2 = .error .PermissionDenied ∧
    lookupA (set_approval env5 σ2A 7 [(1, some ["g", "hh"])]).1.approvals (5, 7)
      = some (ApprovalScope.Some, [1]) ∧
    lookupA σ2A.approvals (5, 7) = none :=
  ⟨rfl, rfl, rfl, rfl, rfl, rfl⟩

/-- C2, amended: a user error raised by an operation's up-front validation
leaves the state unchanged — `mint` returning `NotFound`, `WrongArgument` or
`NotEnoughFee`, and `set_approval` returning `BadAdress` or `SelfOperation`,
mutate nothing; but `mint` returning `AlreadyExist` has already debited the
mint fee, and `set_approval` returning `PermissionDenied` (or `NotFound` /
`WrongArgument` on a later entry) may retain approvals recorded earlier in
the same call. -/
theorem C2_amended_validation_errors_pure (env : Env) (σ : State) :
    (∀ tid gen σ' e, mint env σ tid gen = (σ', .error e) →
      e = .NotFound ∨ e = .WrongArgument ∨ e = .NotEnoughFee → σ' = σ) ∧
    (∀ operator toks σ' e, set_approval env σ operator toks = (σ', .error e) →
      e = .BadAdress ∨ e = .SelfOperation → σ' = σ) := by
  constructor
  · intro tid gen σ' e h he
    unfold mint at h
    split at h
    · simp [Prod.ext_iff] at h
      exact h.1.symm
    · split at h
      · simp [Prod.ext_iff] at h
        exact h.1.symm
      · split at h
        · simp [Prod.ext_iff] at h
          exact h.1.symm
        · split at h
          · simp [Prod.ext_iff] at h
            exact h.1.symm
          · split at h
            next σ1 e1 hpay =>
              simp [Prod.ext_iff] at h
              rw [← h.1]
              exact transfer_token_impl_err hpay
            next σ1 v1 hpay =>
              rcases create_nft_impl_err_shape h with he' | he' <;>
                (subst he'; rcases he with h' | h' | h' <;> simp at h')
  · intro operator toks σ' e h he
    unfold set_approval at h
    split at h
    · simp [Prod.ext_iff] at h
      exact h.1.symm
    · split at h
      · simp [Prod.ext_iff] at h
        exact h.1.symm
      · rcases set_approval_loop_err toks σ σ' e h with h' | h' | h' <;>
          (subst h'; rcases he with h'' | h'' <;> simp at h'')

/-- Witness for C2's amended claim at concrete inputs: a `mint` of an
unassigned token id and a `set_approval` on the zero operator leave the
state exactly as it was. -/
theorem C2_witness :
    (mint env5 σ8 5 "g").1 = σ8 ∧ (set_approval env5 σ2A 0 [(1, some ["g"])]).1 = σ2A :=
  ⟨(C2_amended_validation_errors_pure env5 σ8).1 5 "g" σ8 .NotFound rfl (Or.inl rfl),
   (C2_amended_validation_errors_pure env5 σ2A).2 0 [(1, some ["g"])] σ2A .BadAdress
     rfl (Or.inl rfl)⟩

/-- C8, counterexample: in the bootstrap state (one existing type, so the new
type gets id 1), `create_token_type` records the new type at id 1 but returns
`Ok 2` — the new number of token types, not the assigned token id. -/
theorem C8_counterexample :
    (create_token_type envW σ8 "gold" TokenKind.Ft AmountOption.None).2 = .ok 2 ∧
    lookupA (create_token_type envW σ8 "gold" TokenKind.Ft AmountOption.None).1.token_infomations 1
      = some ("gold", TokenKind.Ft) ∧
    σ8.variety_of_tokens = 1 ∧
    (2 : Nat) ≠ 1 :=
  ⟨rfl, rfl, rfl, by decide⟩

/-- C8, amended: `create_token_type` assigns the next sequential token id —
the number of token types existing before the call — but returns the new
count, i.e. the assigned id plus one; it fails `PermissionDenied` for a
non-founder caller, `WrongArgument` for an empty name, and `Overflow` when
the u128 id counter would wrap.  A fungible type also credits the selected
initial supply to the contract's own account at the new id. -/
theorem C8_amended_create_token_type (env : Env) (σ : State) (name : String)
    (kind : TokenKind) (initial : AmountOption) :
    (env.caller ≠ σ.founder →
      create_token_type env σ name kind initial = (σ, .error .PermissionDenied)) ∧
    (env.caller = σ.founder → name = "" →
      create_token_type env σ name kind initial = (σ, .error .WrongArgument)) ∧
    (env.caller = σ.founder → name ≠ "" → U128_MAX ≤ σ.variety_of_tokens →
      create_token_type env σ name kind initial = (σ, .error .Overflow)) ∧
    (env.caller = σ.founder → name ≠ "" → σ.variety_of_tokens < U128_MAX →
      (create_token_type env σ name kind initial).2 = .ok (σ.variety_of_tokens + 1) ∧
      lookupA (create_token_type env σ name kind initial).1.token_infomations
          σ.variety_of_tokens = some (name, kind) ∧
      (create_token_type env σ name kind initial).1.variety_of_tokens
          = σ.variety_of_tokens + 1 ∧
      (kind = TokenKind.Ft →
        balance_of (create_token_type env σ name kind initial).1 env.contractAddress
            σ.variety_of_tokens
          = (match initial with
             | AmountOption.None => 0
             | AmountOption.Some n => n
             | AmountOption.Max => MAX_CURRENCY_AMOUNT))) := by
  refine ⟨?_, ?_, ?_, ?_⟩
  · intro h
    simp [create_token_type, h]
  · intro h1 h2
    simp [create_token_type, h1, h2]
  · intro h1 h2 h3
    simp only [create_token_type, create_token_type_impl, checked_add]
    rw [if_neg (by simp [h1]), if_neg (by simpa using h2), if_neg (by omega)]
  · intro h1 h2 h3
    simp only [create_token_type, create_token_type_impl, checked_add]
    rw [if_neg (by simp [h1]), if_neg (by simpa using h2), if_pos (by omega)]
    dsimp only []
    by_cases hk : kind = TokenKind.Ft
    · rw [if_pos hk]
      refine ⟨rfl, ?_, rfl, fun _ => ?_⟩
      · simp [insertA, lookupA]
      · cases initial <;> simp [balance_of, balance_of_single_impl, insertA, lookupA]
    · rw [if_neg hk]
      refine ⟨rfl, ?_, rfl, fun hf => absurd hf hk⟩
      simp [insertA, lookupA]

/-- Witness for C8's amended claim: the founder creates a second (fungible)
type in the bootstrap state; it is recorded at id 1 and `Ok 2` is returned. -/
theorem C8_witness :
    (create_token_type envW σ8 "coin" TokenKind.Ft (AmountOption.Some 7)).2
        = .ok (σ8.variety_of_tokens + 1) ∧
    lookupA (create_token_type envW σ8 "coin" TokenKind.Ft (AmountOption.Some 7)).1.token_infomations
        σ8.variety_of_tokens = some ("coin", TokenKind.Ft) := by
  have h := (C8_amended_create_token_type envW σ8 "coin" TokenKind.Ft
    (AmountOption.Some 7)).2.2.2 rfl (by decide) (by decide)
  exact ⟨h.1, h.2.1⟩

/-- C10, counterexample: with a payment of 500 and a pool of 1000 — both
conditions of the claim satisfied — `buy_currency` (and `buy_currency_500`)
returns `Err Overflow`, an outcome the claim does not allow, because the
buyer already holds `u128::MAX` currency and crediting 500 more would
overflow. -/
theorem C10_counterexample :
    BUY_AMOUNT_500 ≤ env10.transferredValue ∧
    BUY_AMOUNT_500 ≤ balance_of σ10 99 0 ∧
    env10.contractAddress = 99 ∧
    buy_currency env10 σ10 500 = (σ10, .error .Overflow) ∧
    buy_currency_500 env10 σ10 = (σ10, .error .Overflow) :=
  ⟨by decide, by decide, rfl, rfl, rfl⟩

/-- C10, amended: `buy_currency how_much` (and `buy_currency_500`, which is
exactly `buy_currency` at the fixed amount 500) with a transferred payment of
at least the requested amount either moves exactly that amount of currency
token 0 from the contract's pool to the caller (all other balances
unchanged), or returns `Err NotAvailable` with every balance unchanged when
the pool is smaller than the amount, or — the case the original claim
omits — returns `Err Overflow` with every balance unchanged when crediting
the caller would exceed the 128-bit width; a payment below the amount
returns `Err NotEnoughFee` with every balance unchanged. -/
theorem C10_amended_buy_currency (env : Env) (σ : State) (how_much : Nat)
    (hcc : env.caller ≠ env.contractAddress) :
    buy_currency_500 env σ = buy_currency env σ BUY_AMOUNT_500 ∧
    (env.transferredValue < how_much →
      buy_currency env σ how_much = (σ, .error .NotEnoughFee)) ∧
    (how_much ≤ env.transferredValue →
      balance_of σ env.contractAddress 0 < how_much →
      buy_currency env σ how_much = (σ, .error .NotAvailable)) ∧
    (how_much ≤ env.transferredValue →
      how_much ≤ balance_of σ env.contractAddress 0 →
      U128_MAX < balance_of σ env.caller 0 + how_much →
      buy_currency env σ how_much = (σ, .error .Overflow)) ∧
    (how_much ≤ env.transferredValue →
      how_much ≤ balance_of σ env.contractAddress 0 →
      balance_of σ env.caller 0 + how_much ≤ U128_MAX →
      (buy_currency env σ how_much).2 = .ok how_much ∧
      balance_of (buy_currency env σ how_much).1 env.caller 0
        = balance_of σ env.caller 0 + how_much ∧
      balance_of (buy_currency env σ how_much).1 env.contractAddress 0
        = balance_of σ env.contractAddress 0 - how_much ∧
      (∀ a t, a ≠ env.caller → a ≠ env.contractAddress →
        balance_of (buy_currency env σ how_much).1 a t = balance_of σ a t) ∧
      (∀ t, t ≠ 0 →
        balance_of (buy_currency env σ how_much).1 env.caller t
          = balance_of σ env.caller t ∧
        balance_of (buy_currency env σ how_much).1 env.contractAddress t
          = balance_of σ env.contractAddress t)) := by
  refine ⟨rfl, ?_, ?_, ?_, ?_⟩
  · intro h
    simp [buy_currency, h]
  · intro h1 h2
    simp only [buy_currency, CURRENCY_TOKEN_ID]
    rw [if_neg (by omega)]
    unfold transfer_token_impl
    dsimp only []
    rw [if_pos (by simpa [balance_of] using h2)]
  · intro h1 h2 h3
    simp only [buy_currency, CURRENCY_TOKEN_ID]
    rw [if_neg (by omega)]
    unfold transfer_token_impl
    dsimp only []
    rw [if_neg (by simp only [balance_of] at h2; omega)]
    simp only [checked_sub, checked_add]
    rw [if_pos (by simpa [balance_of] using h2)]
    dsimp only []
    rw [if_neg (by simp only [balance_of] at h3; omega)]
  · intro h1 h2 h3
    have hrun : buy_currency env σ how_much
        = transfer_token_impl σ env.caller CURRENCY_TOKEN_ID env.contractAddress
            env.caller how_much := by
      simp [buy_currency, Nat.not_lt.mpr h1]
    have hok := @transfer_token_impl_ok_of σ env.caller CURRENCY_TOKEN_ID
      env.contractAddress env.caller how_much
      (show how_much ≤ balance_of_single_impl σ env.contractAddress CURRENCY_TOKEN_ID from h2)
      (show balance_of_single_impl σ env.caller CURRENCY_TOKEN_ID + how_much ≤ U128_MAX from h3)
    rw [hok] at hrun
    obtain ⟨hA, hB, hC, hD, _, _, _, _, _, _⟩ :=
      transfer_token_impl_ok (fun hc => hcc hc.symm) hok
    refine ⟨by rw [hrun], ?_, ?_, ?_, ?_⟩
    · have := hC 0
      rw [if_pos (show (0 : Nat) = CURRENCY_TOKEN_ID from rfl)] at this
      rw [hrun]
      exact this
    · have := hB 0
      rw [if_pos (show (0 : Nat) = CURRENCY_TOKEN_ID from rfl)] at this
      rw [hrun]
      exact this
    · intro a t ha1 ha2
      rw [hrun]
      exact hD a t ha2 ha1
    · intro t ht
      constructor
      · have := hC t
        rw [if_neg (show ¬ t = CURRENCY_TOKEN_ID from ht)] at this
        rw [hrun]
        simpa using this
      · have := hB t
        rw [if_neg (show ¬ t = CURRENCY_TOKEN_ID from ht)] at this
        rw [hrun]
        simpa using this

/-- Witness for C10's amended claim: buyer 5 pays 500 into a pool of 1000 and
receives exactly 500 currency; the pool drops to 500. -/
theorem C10_witness :
    (buy_currency env10 σ10b 500).2 = .ok 500 ∧
    balance_of (buy_currency env10 σ10b 500).1 5 0 = balance_of σ10b 5 0 + 500 ∧
    balance_of (buy_currency env10 σ10b 500).1 99 0 = balance_of σ10b 99 0 - 500 := by
  have h := (C10_amended_buy_currency env10 σ10b 500 (by decide)).2.2.2.2
    (by decide) (by decide) (by decide)
  exact ⟨h.1, h.2.1, h.2.2.1⟩

/-- C5, counterexample: account 5 holds 150 ≥ 100 currency, token 1 is a
registered non-fungible type, the seed is non-empty and the derived identity
is not yet owned — by the claim `mint` must succeed — yet it returns
`Err NotEnoughFee`, because the pool already holds `u128::MAX` currency and
crediting the fee overflows, an error `mint` relabels as `NotEnoughFee`. -/
theorem C5_counterexample :
    balance_of σ5 5 0 = 150 ∧
    MINT_FEE ≤ balance_of σ5 5 0 ∧
    lookupA σ5.token_infomations 1 = some ("weapon", TokenKind.Nft) ∧
    lookupA σ5.nfts (5, 1) = none ∧
    mint env5 σ5 1 "g" = (σ5, .error .NotEnoughFee) :=
  ⟨rfl, by decide, rfl, rfl, rfl⟩

/-- C5, amended: `mint` fails `NotFound` for an out-of-range token id or a
fungible kind, `WrongArgument` for an empty seed, and `NotEnoughFee` whenever
the fee transfer fails — when the caller's currency balance is below the fee
of 100, but also when crediting the fee to the pool would overflow u128; when
the fee transfer succeeds it fails `AlreadyExist` if the caller already owns
an instance with the seed's derived identity, and otherwise — provided the
mirrored balance increment stays within u128 — it adds the identity to the
caller's instance list, increments the caller's mirrored balance for the
token by exactly 1, debits the fee from the caller to the pool, and returns
the identity.  (`tid ≠ 0` and a caller distinct from the contract account
hold in every reachable state: token 0 is the bootstrap fungible currency and
the contract never calls its own `mint`.) -/
theorem C5_amended_mint (env : Env) (σ : State) (tid : Nat) (gen : String)
    (hcc : env.caller ≠ env.contractAddress) (htid0 : tid ≠ 0) :
    (σ.variety_of_tokens ≤ tid → mint env σ tid gen = (σ, .error .NotFound)) ∧
    (tid < σ.variety_of_tokens → gen = "" →
      mint env σ tid gen = (σ, .error .WrongArgument)) ∧
    (∀ nm, tid < σ.variety_of_tokens → gen ≠ "" →
      lookupA σ.token_infomations tid = some (nm, TokenKind.Ft) →
      mint env σ tid gen = (σ, .error .NotFound)) ∧
    (∀ nm, tid < σ.variety_of_tokens → gen ≠ "" →
      lookupA σ.token_infomations tid = some (nm, TokenKind.Nft) →
      balance_of_single_impl σ env.caller CURRENCY_TOKEN_ID < MINT_FEE →
      mint env σ tid gen = (σ, .error .NotEnoughFee)) ∧
    (∀ nm, tid < σ.variety_of_tokens → gen ≠ "" →
      lookupA σ.token_infomations tid = some (nm, TokenKind.Nft) →
      MINT_FEE ≤ balance_of_single_impl σ env.caller CURRENCY_TOKEN_ID →
      U128_MAX < balance_of_single_impl σ env.contractAddress CURRENCY_TOKEN_ID + MINT_FEE →
      mint env σ tid gen = (σ, .error .NotEnoughFee)) ∧
    (∀ nm, tid < σ.variety_of_tokens → gen ≠ "" →
      lookupA σ.token_infomations tid = some (nm, TokenKind.Nft) →
      MINT_FEE ≤ balance_of_single_impl σ env.caller CURRENCY_TOKEN_ID →
      balance_of_single_impl σ env.contractAddress CURRENCY_TOKEN_ID + MINT_FEE ≤ U128_MAX →
      gen_to_identity_impl env gen ∈ (lookupA σ.nfts (env.caller, tid)).getD [] →
      (mint env σ tid gen).2 = .error .AlreadyExist) ∧
    (∀ nm, tid < σ.variety_of_tokens → gen ≠ "" →
      lookupA σ.token_infomations tid = some (nm, TokenKind.Nft) →
      MINT_FEE ≤ balance_of_single_impl σ env.caller CURRENCY_TOKEN_ID →
      balance_of_single_impl σ env.contractAddress CURRENCY_TOKEN_ID + MINT_FEE ≤ U128_MAX →
      gen_to_identity_impl env gen ∉ (lookupA σ.nfts (env.caller, tid)).getD [] →
      balance_of_single_impl σ env.caller tid + 1 ≤ U128_MAX →
      (mint env σ tid gen).2 = .ok (gen_to_identity_impl env gen) ∧
      balance_of (mint env σ tid gen).1 env.caller tid
        = balance_of σ env.caller tid + 1 ∧
      (lookupA (mint env σ tid gen).1.nfts (env.caller, tid)).getD []
        = (lookupA σ.nfts (env.caller, tid)).getD [] ++ [gen_to_identity_impl env gen] ∧
      balance_of (mint env σ tid gen).1 env.caller CURRENCY_TOKEN_ID
        = balance_of σ env.caller CURRENCY_TOKEN_ID - MINT_FEE ∧
      balance_of (mint env σ tid gen).1 env.contractAddress CURRENCY_TOKEN_ID
        = balance_of σ env.contractAddress CURRENCY_TOKEN_ID + MINT_FEE) := by
  refine ⟨?_, ?_, ?_, ?_, ?_, ?_, ?_⟩
  · intro ha
    unfold mint
    rw [if_pos (show tid ≥ σ.variety_of_tokens from ha)]
  · intro hlt hgen
    unfold mint
    rw [if_neg (by omega), if_pos hgen]
  · intro nm hlt hgen hk
    unfold mint
    rw [if_neg (by omega), if_neg hgen]
    simp only [get_token_type_single_impl, hk]
    rw [if_pos (by decide)]
  · intro nm hlt hgen hk hfee
    unfold mint
    rw [if_neg (by omega), if_neg hgen]
    simp only [get_token_type_single_impl, hk]
    rw [if_neg (by simp)]
    unfold pay transfer_token_impl
    dsimp only []
    rw [if_pos hfee]
  · intro nm hlt hgen hk hfee hpool
    unfold mint
    rw [if_neg (by omega), if_neg hgen]
    simp only [get_token_type_single_impl, hk]
    rw [if_neg (by simp)]
    unfold pay transfer_token_impl
    dsimp only []
    rw [if_neg (by omega)]
    simp only [checked_sub, checked_add]
    rw [if_pos hfee]
    dsimp only []
    rw [if_neg (by omega)]
  · intro nm hlt hgen hk hfee hpool hmem
    have hpay := @transfer_token_impl_ok_of σ env.caller CURRENCY_TOKEN_ID env.caller
      env.contractAddress MINT_FEE hfee hpool
    have hmint : mint env σ tid gen
        = create_nft_impl env ({σ with balances := insertA (insertA σ.balances (env.caller, CURRENCY_TOKEN_ID) (balance_of_single_impl σ env.caller CURRENCY_TOKEN_ID - MINT_FEE)) (env.contractAddress, CURRENCY_TOKEN_ID) (balance_of_single_impl σ env.contractAddress CURRENCY_TOKEN_ID + MINT_FEE)}) tid gen := by
      unfold mint
      rw [if_neg (by omega), if_neg hgen]
      simp only [get_token_type_single_impl, hk]
      rw [if_neg (by simp)]
      unfold pay
      rw [hpay]
    rw [hmint]
    unfold create_nft_impl
    dsimp only []
    rcases hl : lookupA σ.nfts (env.caller, tid) with _ | v
    · rw [hl] at hmem
      simp at hmem
    · rw [hl] at hmem
      dsimp only []
      rw [if_pos (by rw [containsA_iff]; simpa using hmem)]
  · intro nm hlt hgen hk hfee hpool hmem hmirror
    have hpay := @transfer_token_impl_ok_of σ env.caller CURRENCY_TOKEN_ID env.caller
      env.contractAddress MINT_FEE hfee hpool
    have hmint : mint env σ tid gen
        = create_nft_impl env ({σ with balances := insertA (insertA σ.balances (env.caller, CURRENCY_TOKEN_ID) (balance_of_single_impl σ env.caller CURRENCY_TOKEN_ID - MINT_FEE)) (env.contractAddress, CURRENCY_TOKEN_ID) (balance_of_single_impl σ env.contractAddress CURRENCY_TOKEN_ID + MINT_FEE)}) tid gen := by
      unfold mint
      rw [if_neg (by omega), if_neg hgen]
      simp only [get_token_type_single_impl, hk]
      rw [if_neg (by simp)]
      unfold pay
      rw [hpay]
    have hbalmid : ∀ (nl : List ((Nat × Nat) × List Nat)),
        balance_of_single_impl ({σ with balances := insertA (insertA σ.balances (env.caller, CURRENCY_TOKEN_ID) (balance_of_single_impl σ env.caller CURRENCY_TOKEN_ID - MINT_FEE)) (env.contractAddress, CURRENCY_TOKEN_ID) (balance_of_single_impl σ env.contractAddress CURRENCY_TOKEN_ID + MINT_FEE), nfts := nl}) env.caller tid
          = balance_of_single_impl σ env.caller tid := by
      intro nl
      simp only [balance_of_single_impl, insertA, lookupA, CURRENCY_TOKEN_ID]
      rw [if_neg (by simp [Prod.ext_iff, hcc]), if_neg (by simp [Prod.ext_iff, htid0])]
    rw [hmint]
    unfold create_nft_impl
    dsimp only []
    rcases hl : lookupA σ.nfts (env.caller, tid) with _ | v
    · rw [hl] at hmem
      dsimp only []
      rw [hbalmid]
      simp only [checked_add]
      rw [if_pos hmirror]
      dsimp only []
      refine ⟨rfl, ?_, ?_, ?_, ?_⟩
      · simp [balance_of, balance_of_single_impl, insertA, lookupA]
      · simp [insertA, lookupA]
      · simp [balance_of, balance_of_single_impl, insertA, lookupA, CURRENCY_TOKEN_ID,
          Prod.ext_iff, htid0, hcc, Ne.symm htid0, Ne.symm hcc]
      · simp [balance_of, balance_of_single_impl, insertA, lookupA, CURRENCY_TOKEN_ID,
          Prod.ext_iff, htid0, hcc, Ne.symm htid0, Ne.symm hcc]
    · rw [hl] at hmem
      dsimp only []
      rw [if_neg (by rw [containsA_iff]; simpa using hmem)]
      rw [hbalmid]
      simp only [checked_add]
      rw [if_pos hmirror]
      dsimp only []
      refine ⟨rfl, ?_, ?_, ?_, ?_⟩
      · simp [balance_of, balance_of_single_impl, insertA, lookupA]
      · simp [insertA, lookupA]
      · simp [balance_of, balance_of_single_impl, insertA, lookupA, CURRENCY_TOKEN_ID,
          Prod.ext_iff, htid0, hcc, Ne.symm htid0, Ne.symm hcc]
      · simp [balance_of, balance_of_single_impl, insertA, lookupA, CURRENCY_TOKEN_ID,
          Prod.ext_iff, htid0, hcc, Ne.symm htid0, Ne.symm hcc]

/-- Witness for C5's amended claim: account 5 (150 currency, no instances yet)
mints an instance of token 1 with seed "g"; the identity is returned, the
instance list gains it, the mirror balance becomes 1, and the fee moves from
the caller to the pool. -/
theorem C5_witness :
    (mint env5 σ5b 1 "g").2 = .ok (gen_to_identity_impl env5 "g") ∧
    balance_of (mint env5 σ5b 1 "g").1 5 1 = balance_of σ5b 5 1 + 1 ∧
    balance_of (mint env5 σ5b 1 "g").1 5 CURRENCY_TOKEN_ID
      = balance_of σ5b 5 CURRENCY_TOKEN_ID - MINT_FEE := by
  have h := (C5_amended_mint env5 σ5b 1 "g" (by decide) (by decide)).2.2.2.2.2.2
    "weapon" (by decide) (by decide) rfl (by decide) (by decide) (by decide) (by decide)
  exact ⟨h.1, h.2.1, h.2.2.2.1⟩

end Erc1155
